import Mathlib

/-! # Verification of `mbtool/util/file.cpp`

The three operations of the module (`create_empty_file`, `file_first_line`,
`file_write_data`) are embedded as pure functions over an explicit host state
`World` (the files by path, the table of open descriptors/streams, the
process umask).  What the host decides (whether an open call is allowed,
whether the first read fails, how many bytes every `fwrite` call accepts, how
many of the accepted bytes the flush at `fclose` delivers to the file) is
passed in as an argument, so that theorems quantify over every behaviour of
the host.
-/

namespace mb.util

/-! ## Data model -/

/-- A byte (`char` compared only against `'\n'` and `'\0'`). -/
abbrev Byte := Fin 256

/-- A pathname; the module passes it on to the host, which interprets it. -/
abbrev Path := String

/-- The character `'\n'`. -/
def NL : Byte := 10

/-- The character `'\0'`. -/
def NUL : Byte := 0

/-- A regular file: permission bits and contents. -/
structure File where
  mode : Nat
  data : List Byte
deriving DecidableEq, Repr

/-- The host state seen by the module. -/
structure World where
  files : Path → Option File
  handles : List Nat
  umask : Nat

/-! ## Host calls (`<fcntl.h>`, `<unistd.h>`, `<sys/stat.h>`, `<cstdio>`) -/

def S_IRUSR : Nat := 0o400
def S_IWUSR : Nat := 0o200
def S_IRGRP : Nat := 0o040
def S_IWGRP : Nat := 0o020
def S_IROTH : Nat := 0o004
def S_IWOTH : Nat := 0o002

/-- Permission bits a created file gets: the requested bits with the bits of
the file-creation mask cleared. -/
def apply_umask (mode umask : Nat) : Nat :=
  mode &&& (0o777 ^^^ (umask &&& 0o777))

/-- A handle number that is not in the table. -/
def fresh_handle (hs : List Nat) : Nat := hs.foldr max 0 + 1

/-- Enter a new handle in the table of open handles. -/
def acquire (w : World) : Nat × World :=
  (fresh_handle w.handles, { w with handles := fresh_handle w.handles :: w.handles })

/-- The calls `close(fd)` and `fclose(fp)`, as far as the handle table goes. -/
def release (h : Nat) (w : World) : World :=
  { w with handles := w.handles.erase h }

/-- The call `open(path, flags, mode)`.  `ok` is the decision of the host
(permissions, missing directory, descriptor limit, ...); `creat` and `trunc`
are the flags `O_CREAT` and `O_TRUNC`.  A failed open changes nothing. -/
def host_open (ok creat trunc : Bool) (mode : Nat) (w : World) (path : Path) :
    Option (Nat × World) :=
  if ok then
    match w.files path with
    | some f =>
      if trunc then
        some (acquire { w with files := Function.update w.files path (some { f with data := [] }) })
      else some (acquire w)
    | none =>
      if creat then
        some (acquire { w with
          files := Function.update w.files path (some ⟨apply_umask mode w.umask, []⟩) })
      else none
  else none

/-- The call `std::fopen(path, "rb")`: the handle, the bytes of the stream and
the new host state. -/
def fopen_rb (ok : Bool) (w : World) (path : Path) : Option (Nat × List Byte × World) :=
  match host_open ok false false 0 w path with
  | none => none
  | some (fp, w1) =>
    match w1.files path with
    | some f => some (fp, f.data, w1)
    | none => none

/-- The call `std::fopen(path, "wb")`: create with mode 0666 or truncate. -/
def fopen_wb (ok : Bool) (w : World) (path : Path) : Option (Nat × World) :=
  host_open ok true true 0o666 w path

/-- Bytes `getline` consumes from a stream: up to and including the first
newline, or everything when there is none. -/
def read_record : List Byte → List Byte
  | [] => []
  | b :: rest => if b = NL then [b] else b :: read_record rest

/-- The call `getline(&line, &len, fp)` on a stream delivering `stream`: the
return value and the buffer, which holds the record followed by a terminating
NUL.  With nothing to read the return value is -1. -/
def getline (stream : List Byte) : Int × List Byte :=
  if (read_record stream).isEmpty then (-1, [])
  else (((read_record stream).length : Nat), read_record stream ++ [NUL])

/-- The expression `line[i]`: `none` when the index is outside the buffer. -/
def char_at (line : List Byte) (i : Int) : Option Byte :=
  if i < 0 then none else line.get? i.toNat

/-- The bytes of a NUL-terminated C string stored in `line`, which is what
`std::string::operator=(const char *)` copies. -/
def c_str (line : List Byte) : List Byte := line.takeWhile (fun b => b ≠ NUL)

def SIZE_MOD : Nat := 2 ^ 64
def SSIZE_BOUND : Nat := 2 ^ 63

/-- Conversion of a `size_t` value to `ssize_t`. -/
def to_ssize (k : Nat) : Int :=
  if k % SIZE_MOD < SSIZE_BOUND then ((k % SIZE_MOD : Nat) : Int)
  else ((k % SIZE_MOD : Nat) : Int) - (SIZE_MOD : Int)

/-- The call `std::fwrite(data, 1, size, fp)` where `req` are the `size` bytes
at `data`.  `orc i req` is the number of bytes the host accepts in call number
`i`; a request of no bytes returns 0. -/
def fwrite (orc : Nat → List Byte → Nat) (i : Nat) (req : List Byte) : Nat :=
  if req.isEmpty then 0 else orc i req

/-! ## The module -/

/-- The function `create_empty_file`, lines 48-59.  The descriptor is closed
before the successful return; after a failed open there is none. -/
def create_empty_file (open_ok : Bool) (w : World) (path : Path) : Bool × World :=
  match host_open open_ok true false
      (S_IRUSR ||| S_IWUSR ||| S_IRGRP ||| S_IWGRP ||| S_IROTH ||| S_IWOTH) w path with
  | none => (false, w)
  | some (fd, w1) => (true, release fd w1)

/-- The function `file_first_line`, lines 74-102.  `line_out` is the value of
the output argument before the call; the result is the return value, the value
of the output argument after the call and the host state.  `none` stands for
an access outside the line buffer.  `read_err` says that the first read on the
stream fails, so that `getline` gets no bytes (a read error after some bytes
have arrived is not modelled).  The stream handle `fp` is released by the
destructor of `file_ptr` on every return after a successful open.  The
decrement of `read` after the newline is cut has no effect on the result
(`read` is not used again) and the release of the heap buffer by `free_line`
is not part of the host state; both are left out. -/
def file_first_line (open_ok read_err : Bool) (w : World) (path : Path)
    (line_out : List Byte) : Option (Bool × List Byte × World) :=
  match fopen_rb open_ok w path with
  | none => some (false, line_out, w)
  | some (fp, stream, w1) =>
    let r := getline (if read_err then [] else stream)
    let read := r.1
    let line := r.2
    if read < 0 then some (false, line_out, release fp w1)
    else
      match char_at line (read - 1) with
      | none => none
      | some c =>
        let line1 := if c = NL then line.set (read - 1).toNat NUL else line
        some (true, c_str line1, release fp w1)

/-- State of the write loop: the bytes the stream has accepted, and for every
`fwrite` call so far the bytes it was handed and the count it returned. -/
structure WriteState where
  written : List Byte
  calls : List (List Byte × Nat)
deriving DecidableEq, Repr

/-- The `do ... while (size > 0)` loop of `file_write_data`, lines 123-130.
`off` is the position of the pointer `data` inside the caller's buffer `buf`.
`none` means the loop is still running when the fuel is used up. -/
def write_loop (orc : Nat → List Byte → Nat) (buf : List Byte) :
    Nat → Nat → Nat → WriteState → Option (Bool × WriteState)
  | 0, _, _, _ => none
  | fuel + 1, off, size, st =>
    let req := (buf.drop off).take size
    let k := fwrite orc st.calls.length req
    let st1 : WriteState := ⟨st.written ++ req.take k, st.calls ++ [(req, k)]⟩
    if to_ssize k < 0 then some (false, st1)
    else
      let size1 := (size + SIZE_MOD - k % SIZE_MOD) % SIZE_MOD
      if size1 > 0 then write_loop orc buf fuel (off + k) size1 st1
      else some (true, st1)

/-- Contents of a file that held `old` after `bytes` were written into it from
position 0 on, as a stream just opened does: the bytes replace what was at
their positions and whatever `old` held beyond them stays. -/
def write_at_start (old bytes : List Byte) : List Byte :=
  bytes ++ old.drop bytes.length

/-- The flush that `fclose(fp)` performs on a stream opened for writing on
`path`.  The stream is buffered: the bytes `fwrite` accepted reach the file
when the buffer is written out, at the latest here.  `reach` is the decision
of the host: how many of the accepted bytes the file takes (all of them when
`reach` is at least their number, fewer when a write of the buffer fails).
The result of `fclose` is not looked at by the callers. -/
def flush (reach : Nat) (w : World) (path : Path) (accepted : List Byte) : World :=
  match w.files path with
  | some f =>
    { w with
      files := Function.update w.files path
        (some { f with data := write_at_start f.data (accepted.take reach) }) }
  | none => w

/-- The function `file_write_data`, lines 113-133.  The stream is closed by
the destructor of `file_ptr` on every return after a successful open: the
buffered bytes are flushed (`reach` of them arrive), the result of `fclose` is
dropped and the handle is released.  The result is the return value, the host
state and the record of the `fwrite` calls; `none` means the loop has not
returned within `fuel` iterations. -/
def file_write_data (open_ok : Bool) (orc : Nat → List Byte → Nat) (reach fuel : Nat)
    (w : World) (path : Path) (data : List Byte) (size : Nat) :
    Option (Bool × World × List (List Byte × Nat)) :=
  match fopen_wb open_ok w path with
  | none => some (false, w, [])
  | some (fp, w1) =>
    match write_loop orc data fuel 0 size ⟨[], []⟩ with
    | none => none
    | some (r, st) => some (r, release fp (flush reach w1 path st.written), st.calls)

/-- The first line of a file in the words of the specification: the bytes up
to the first newline or the end of the file, the newline removed. -/
def first_line_bytes (contents : List Byte) : List Byte :=
  contents.takeWhile (fun b => b ≠ NL)

/-- The host state after `path` was opened with `"wb"` and closed again with
`bytes` having reached the file: the file keeps its permission
bits when it existed and gets 0666 less the umask when it was created. -/
def after_write (w : World) (path : Path) (bytes : List Byte) : World :=
  { w with
    files := Function.update w.files path
      (some ⟨(match w.files path with
              | some f => f.mode
              | none => apply_umask 0o666 w.umask), bytes⟩) }

/-- The host state after a successful `create_empty_file`: an existing file is
left alone, a missing one is created empty with 0666 less the umask. -/
def after_create (w : World) (path : Path) : World :=
  match w.files path with
  | some _ => w
  | none =>
    { w with files := Function.update w.files path (some ⟨apply_umask 0o666 w.umask, []⟩) }

/-- A host state holding one file, used for concrete evaluations. -/
def single_file (path : Path) (bytes : List Byte) : World :=
  ⟨fun p => if p = path then some ⟨0o644, bytes⟩ else none, [0, 1, 2], 0o022⟩

/-- A host state without files, used for concrete evaluations. -/
def no_files : World := ⟨fun _ => none, [0, 1, 2], 0o022⟩

/-! ## Lemmas on the host calls -/

theorem release_acquire (w : World) : release (acquire w).1 (acquire w).2 = w := by
  simp [release, acquire]

theorem read_record_eq_nil (s : List Byte) : read_record s = [] ↔ s = [] := by
  cases s with
  | nil => simp [read_record]
  | cons b rest =>
    by_cases h : b = NL <;> simp [read_record, h]

theorem read_record_no_newline (s : List Byte) (h : NL ∉ s) : read_record s = s := by
  induction s with
  | nil => rfl
  | cons b rest ih =>
    simp only [List.mem_cons, not_or] at h
    have hb : b ≠ NL := fun e => h.1 e.symm
    simp [read_record, hb, ih h.2]

theorem read_record_newline (X Y : List Byte) (h : NL ∉ X) :
    read_record (X ++ NL :: Y) = X ++ [NL] := by
  induction X with
  | nil => simp [read_record]
  | cons b rest ih =>
    simp only [List.mem_cons, not_or] at h
    have hb : b ≠ NL := fun e => h.1 e.symm
    simp [read_record, hb, ih h.2]

theorem takeWhile_all {α : Type} (p : α → Bool) (l : List α) (h : ∀ x ∈ l, p x = true) :
    l.takeWhile p = l := by
  induction l with
  | nil => rfl
  | cons b l ih =>
    have hb : p b = true := h b (List.mem_cons_self b l)
    have hl : ∀ x ∈ l, p x = true := fun x hx => h x (List.mem_cons_of_mem b hx)
    rw [List.takeWhile, hb, ih hl]

theorem takeWhile_append_stop {α : Type} (p : α → Bool) (T rest : List α) (a : α)
    (ha : p a = false) : (T ++ a :: rest).takeWhile p = T.takeWhile p := by
  induction T with
  | nil =>
    show List.takeWhile p (a :: rest) = []
    rw [List.takeWhile, ha]
  | cons b T ih =>
    show List.takeWhile p (b :: (T ++ a :: rest)) = List.takeWhile p (b :: T)
    cases hb : p b with
    | true => rw [List.takeWhile, hb, List.takeWhile, hb, ih]
    | false => rw [List.takeWhile, hb, List.takeWhile, hb]

theorem first_line_bytes_no_newline (s : List Byte) (h : NL ∉ s) : first_line_bytes s = s := by
  apply takeWhile_all
  intro x hx
  have : x ≠ NL := fun e => h (e ▸ hx)
  simpa using this

theorem first_line_bytes_newline (X Y : List Byte) (h : NL ∉ X) :
    first_line_bytes (X ++ NL :: Y) = X := by
  unfold first_line_bytes
  rw [takeWhile_append_stop _ _ _ _ (by simp)]
  exact first_line_bytes_no_newline X h

theorem split_at_newline (s : List Byte) (h : NL ∈ s) :
    ∃ X Y, s = X ++ NL :: Y ∧ NL ∉ X := by
  induction s with
  | nil => simp at h
  | cons b rest ih =>
    by_cases hb : b = NL
    · exact ⟨[], rest, by simp [hb], by simp⟩
    · have hr : NL ∈ rest := by
        rcases List.mem_cons.mp h with e | e
        · exact absurd e.symm hb
        · exact e
      obtain ⟨X, Y, hs, hX⟩ := ih hr
      refine ⟨b :: X, Y, by simp [hs], ?_⟩
      simp only [List.mem_cons, not_or]
      exact ⟨fun e => hb e.symm, hX⟩

theorem c_str_append_nul (T rest : List Byte) : c_str (T ++ NUL :: rest) = c_str T :=
  takeWhile_append_stop _ T rest NUL (by simp)

theorem c_str_no_nul (T : List Byte) (h : NUL ∉ T) : c_str T = T := by
  apply takeWhile_all
  intro x hx
  have : x ≠ NUL := fun e => h (e ▸ hx)
  simpa using this

theorem c_str_has_no_nul (T : List Byte) : NUL ∉ c_str T := by
  induction T with
  | nil => simp [c_str]
  | cons b T ih =>
    simp only [c_str] at ih ⊢
    by_cases hb : b = NUL
    · simp [List.takeWhile, hb]
    · simp only [List.takeWhile, hb, ne_eq, not_false_eq_true, decide_True, List.mem_cons, not_or]
      exact ⟨fun e => hb e.symm, ih⟩

/-! ## Lemmas on `file_first_line` -/

theorem fopen_rb_eq (ok : Bool) (w : World) (path : Path) :
    fopen_rb ok w path =
      if ok = true then
        match w.files path with
        | some f => some ((acquire w).1, f.data, (acquire w).2)
        | none => none
      else none := by
  cases ok <;> cases h : w.files path <;> simp [fopen_rb, host_open, h, acquire]

theorem getline_newline (X Y : List Byte) (h : NL ∉ X) :
    getline (X ++ NL :: Y) = (((X.length + 1 : Nat) : Int), X ++ [NL] ++ [NUL]) := by
  simp [getline, read_record_newline X Y h]

theorem getline_no_newline (s : List Byte) (hs : s ≠ []) (h : NL ∉ s) :
    getline s = ((s.length : Int), s ++ [NUL]) := by
  simp [getline, read_record_no_newline s h, hs]

theorem get?_at_length {α : Type} (X : List α) (a : α) (r : List α) :
    (X ++ a :: r).get? X.length = some a := by
  induction X with
  | nil => rfl
  | cons b X ih => simpa using ih

theorem set_at_length {α : Type} (X : List α) (a b : α) (r : List α) :
    (X ++ a :: r).set X.length b = X ++ b :: r := by
  induction X with
  | nil => rfl
  | cons c X ih => simp [ih]

theorem char_at_length (X : List Byte) (a : Byte) (r : List Byte) :
    char_at (X ++ a :: r) (((X.length + 1 : Nat) : Int) - 1) = some a := by
  have e : ((X.length + 1 : Nat) : Int) - 1 = ((X.length : Nat) : Int) := by push_cast; ring
  rw [e]
  unfold char_at
  rw [if_neg (by omega), Int.toNat_ofNat]
  exact get?_at_length X a r

theorem getline_line (s : List Byte) (hs : s ≠ []) :
    ∃ c, ¬ (getline s).1 < 0 ∧ char_at (getline s).2 ((getline s).1 - 1) = some c ∧
      c_str (if c = NL then (getline s).2.set ((getline s).1 - 1).toNat NUL else (getline s).2)
        = c_str (first_line_bytes s) := by
  by_cases h : NL ∈ s
  · obtain ⟨X, Y, rfl, hX⟩ := split_at_newline s h
    rw [getline_newline X Y hX, first_line_bytes_newline X Y hX]
    refine ⟨NL, by simp only; omega, ?_, ?_⟩
    · simpa using char_at_length X NL [NUL]
    · have e : ((X.length + 1 : Nat) : Int) - 1 = ((X.length : Nat) : Int) := by push_cast; ring
      simp only [if_true, e, Int.toNat_ofNat, List.append_assoc, List.singleton_append]
      rw [set_at_length, c_str_append_nul]
  · rw [getline_no_newline s hs h, first_line_bytes_no_newline s h]
    rcases List.eq_nil_or_concat s with e | ⟨L, b, e⟩
    · exact absurd e hs
    · have hb : b ≠ NL := by
        intro hb
        apply h
        rw [e, hb]
        simp
      refine ⟨b, by simp only; omega, ?_, ?_⟩
      · have := char_at_length L b [NUL]
        simpa [e] using this
      · simp only [if_neg hb]
        exact c_str_append_nul s []

theorem file_first_line_open_failed (ok read_err : Bool) (w : World) (path : Path)
    (line_out : List Byte) (h : ok = false ∨ w.files path = none) :
    file_first_line ok read_err w path line_out = some (false, line_out, w) := by
  unfold file_first_line
  rw [fopen_rb_eq]
  rcases h with h | h <;> simp [h]

theorem file_first_line_no_data (read_err : Bool) (w : World) (path : Path)
    (line_out : List Byte) (f : File) (hf : w.files path = some f)
    (h : read_err = true ∨ f.data = []) :
    file_first_line true read_err w path line_out = some (false, line_out, w) := by
  unfold file_first_line
  rw [fopen_rb_eq]
  simp only [hf, if_true]
  have hg : getline (if read_err = true then [] else f.data) = (-1, []) := by
    rcases h with h | h <;> simp [h, getline, read_record]
  simp only [hg, release_acquire]
  simp

theorem file_first_line_data (w : World) (path : Path) (line_out : List Byte) (f : File)
    (hf : w.files path = some f) (h : f.data ≠ []) :
    file_first_line true false w path line_out
      = some (true, c_str (first_line_bytes f.data), w) := by
  unfold file_first_line
  rw [fopen_rb_eq]
  simp only [hf, if_true]
  obtain ⟨c, h1, h2, h3⟩ := getline_line f.data h
  simp only [Bool.false_eq_true, if_false, if_neg h1, h2, h3, release_acquire]

theorem takeWhile_append_all {α : Type} (p : α → Bool) (P R : List α)
    (h : ∀ x ∈ P, p x = true) : (P ++ R).takeWhile p = P ++ R.takeWhile p := by
  induction P with
  | nil => rfl
  | cons b P ih =>
    have hb : p b = true := h b (List.mem_cons_self b P)
    have hl : ∀ x ∈ P, p x = true := fun x hx => h x (List.mem_cons_of_mem b hx)
    show List.takeWhile p (b :: (P ++ R)) = b :: (P ++ R.takeWhile p)
    rw [List.takeWhile, hb, ih hl]

theorem c_str_is_initial (T : List Byte) : c_str T <+: T := by
  induction T with
  | nil => simp [c_str]
  | cons b T ih =>
    by_cases hb : b = NUL
    · simp [c_str, List.takeWhile, hb]
    · have e : c_str (b :: T) = b :: c_str T := by
        simp [c_str, List.takeWhile, hb]
      rw [e]
      obtain ⟨r, hr⟩ := ih
      exact ⟨r, by simp [hr]⟩

theorem c_str_longest (T P : List Byte) (hP : P <+: T) (h : NUL ∉ P) : P <+: c_str T := by
  obtain ⟨R, rfl⟩ := hP
  have e : c_str (P ++ R) = P ++ c_str R := by
    apply takeWhile_append_all
    intro x hx
    have : x ≠ NUL := fun e => h (e ▸ hx)
    simpa using this
  rw [e]
  exact ⟨c_str R, rfl⟩

theorem file_first_line_returns (ok read_err : Bool) (w : World) (path : Path)
    (line_out : List Byte) : (file_first_line ok read_err w path line_out).isSome = true := by
  cases ok with
  | false => rw [file_first_line_open_failed false read_err w path line_out (Or.inl rfl)]; rfl
  | true =>
    cases hf : w.files path with
    | none => rw [file_first_line_open_failed true read_err w path line_out (Or.inr hf)]; rfl
    | some f =>
      cases read_err with
      | true => rw [file_first_line_no_data true w path line_out f hf (Or.inl rfl)]; rfl
      | false =>
        by_cases hd : f.data = []
        · rw [file_first_line_no_data false w path line_out f hf (Or.inr hd)]; rfl
        · rw [file_first_line_data w path line_out f hf hd]; rfl

/-! ## Lemmas on `file_write_data` -/

theorem to_ssize_of_lt (k : Nat) (h : k < SSIZE_BOUND) : to_ssize k = (k : Int) := by
  unfold to_ssize
  have hk : k % SIZE_MOD = k :=
    Nat.mod_eq_of_lt (by unfold SSIZE_BOUND at h; unfold SIZE_MOD; omega)
  rw [hk, if_pos h]

theorem size_sub (size k : Nat) (hk : k ≤ size) (hs : size < SIZE_MOD) :
    (size + SIZE_MOD - k % SIZE_MOD) % SIZE_MOD = size - k := by
  unfold SIZE_MOD at *
  omega

theorem size_sub_eq_zero (size k : Nat) (hs : size < SIZE_MOD)
    (h : (size + SIZE_MOD - k % SIZE_MOD) % SIZE_MOD = 0) : size ≤ k := by
  unfold SIZE_MOD at *
  omega

theorem write_loop_succ (orc : Nat → List Byte → Nat) (buf : List Byte)
    (fuel off size : Nat) (st : WriteState) :
    write_loop orc buf (fuel + 1) off size st =
      if to_ssize (fwrite orc st.calls.length ((buf.drop off).take size)) < 0 then
        some (false, ⟨st.written ++ ((buf.drop off).take size).take
            (fwrite orc st.calls.length ((buf.drop off).take size)),
          st.calls ++ [((buf.drop off).take size,
            fwrite orc st.calls.length ((buf.drop off).take size))]⟩)
      else if (size + SIZE_MOD
          - fwrite orc st.calls.length ((buf.drop off).take size) % SIZE_MOD) % SIZE_MOD > 0 then
        write_loop orc buf fuel
          (off + fwrite orc st.calls.length ((buf.drop off).take size))
          ((size + SIZE_MOD
            - fwrite orc st.calls.length ((buf.drop off).take size) % SIZE_MOD) % SIZE_MOD)
          ⟨st.written ++ ((buf.drop off).take size).take
              (fwrite orc st.calls.length ((buf.drop off).take size)),
            st.calls ++ [((buf.drop off).take size,
              fwrite orc st.calls.length ((buf.drop off).take size))]⟩
      else
        some (true, ⟨st.written ++ ((buf.drop off).take size).take
            (fwrite orc st.calls.length ((buf.drop off).take size)),
          st.calls ++ [((buf.drop off).take size,
            fwrite orc st.calls.length ((buf.drop off).take size))]⟩) := rfl

theorem fwrite_nil (orc : Nat → List Byte → Nat) (i : Nat) : fwrite orc i [] = 0 := rfl

theorem fwrite_ne_nil (orc : Nat → List Byte → Nat) (i : Nat) (req : List Byte)
    (h : req ≠ []) : fwrite orc i req = orc i req := by
  cases req with
  | nil => exact absurd rfl h
  | cons b r => rfl

theorem take_drop_rest (buf : List Byte) (off : Nat) :
    (buf.drop off).take (buf.length - off) = buf.drop off :=
  List.take_of_length_le (by simp)

theorem write_loop_true_written (orc : Nat → List Byte → Nat) (buf : List Byte)
    (hlen : buf.length < SIZE_MOD) :
    ∀ (fuel off size : Nat) (st st1 : WriteState),
      ((off ≤ buf.length ∧ size = buf.length - off ∧ st.written = buf.take off) ∨
        (buf.length ≤ off ∧ 0 < size ∧ size < SIZE_MOD)) →
      write_loop orc buf fuel off size st = some (true, st1) → st1.written = buf := by
  intro fuel
  induction fuel with
  | zero => intro off size st st1 _ h; simp [write_loop] at h
  | succ fuel ih =>
    intro off size st st1 hinv hrun
    rw [write_loop_succ] at hrun
    rcases hinv with ⟨hoff, hsize, hst⟩ | ⟨hoff, hpos, hsz⟩
    · subst hsize
      rw [take_drop_rest] at hrun
      have hsz : buf.length - off < SIZE_MOD := by omega
      generalize fwrite orc st.calls.length (buf.drop off) = k at hrun
      by_cases hneg : to_ssize k < 0
      · rw [if_pos hneg] at hrun; simp at hrun
      · rw [if_neg hneg] at hrun
        by_cases hmore : (buf.length - off + SIZE_MOD - k % SIZE_MOD) % SIZE_MOD > 0
        · rw [if_pos hmore] at hrun
          refine ih _ _ _ st1 ?_ hrun
          by_cases hk : k ≤ buf.length - off
          · left
            refine ⟨by omega, ?_, ?_⟩
            · rw [size_sub _ _ hk hsz]; omega
            · show st.written ++ (buf.drop off).take k = buf.take (off + k)
              rw [hst, List.take_add]
          · right
            refine ⟨by omega, hmore, Nat.mod_lt _ (by unfold SIZE_MOD; omega)⟩
        · rw [if_neg hmore] at hrun
          have hk : buf.length - off ≤ k := size_sub_eq_zero _ _ hsz (by omega)
          have hall : (buf.drop off).take k = buf.drop off :=
            List.take_of_length_le (by simpa using hk)
          simp only [Option.some.injEq, Prod.mk.injEq, true_and] at hrun
          rw [← hrun]
          show st.written ++ (buf.drop off).take k = buf
          rw [hall, hst, List.take_append_drop]
    · have hnil : (buf.drop off).take size = [] := by
        rw [List.drop_eq_nil_of_le hoff]; exact List.take_nil
      rw [hnil, fwrite_nil] at hrun
      have h0 : ¬ to_ssize 0 < 0 := by simp [to_ssize, SIZE_MOD, SSIZE_BOUND]
      have hsame : (size + SIZE_MOD - 0 % SIZE_MOD) % SIZE_MOD = size := by
        unfold SIZE_MOD at *; omega
      rw [if_neg h0, hsame, if_pos hpos] at hrun
      exact ih _ _ _ st1 (Or.inr ⟨by omega, hpos, hsz⟩) hrun

theorem write_loop_never_false (orc : Nat → List Byte → Nat) (buf : List Byte)
    (horc : ∀ i req, orc i req ≤ req.length) :
    ∀ (fuel off size : Nat) (st st1 : WriteState), size < SSIZE_BOUND →
      write_loop orc buf fuel off size st ≠ some (false, st1) := by
  intro fuel
  induction fuel with
  | zero => intro off size st st1 _ h; simp [write_loop] at h
  | succ fuel ih =>
    intro off size st st1 hsize hrun
    rw [write_loop_succ] at hrun
    have hk : fwrite orc st.calls.length ((buf.drop off).take size) ≤ size := by
      have hreq : ((buf.drop off).take size).length ≤ size := by
        rw [List.length_take]; exact Nat.min_le_left _ _
      by_cases hnil : (buf.drop off).take size = []
      · rw [hnil, fwrite_nil]; omega
      · rw [fwrite_ne_nil _ _ _ hnil]
        exact le_trans (horc _ _) hreq
    generalize fwrite orc st.calls.length ((buf.drop off).take size) = k at hrun hk
    have hs : to_ssize k = (k : Int) := to_ssize_of_lt k (by omega)
    have hsz : size < SIZE_MOD := by unfold SSIZE_BOUND at hsize; unfold SIZE_MOD; omega
    rw [hs, if_neg (by omega), size_sub _ _ hk hsz] at hrun
    by_cases hmore : size - k > 0
    · rw [if_pos hmore] at hrun
      exact ih _ _ _ st1 (by omega) hrun
    · rw [if_neg hmore] at hrun
      simp at hrun

theorem write_loop_stuck (orc : Nat → List Byte → Nat) (buf : List Byte)
    (h0 : ∀ i req, orc i req = 0) :
    ∀ (fuel off size : Nat) (st : WriteState), 0 < size → size < SIZE_MOD →
      write_loop orc buf fuel off size st = none := by
  intro fuel
  induction fuel with
  | zero => intro off size st _ _; rfl
  | succ fuel ih =>
    intro off size st hpos hsz
    rw [write_loop_succ]
    have hk : fwrite orc st.calls.length ((buf.drop off).take size) = 0 := by
      by_cases hnil : (buf.drop off).take size = []
      · rw [hnil, fwrite_nil]
      · rw [fwrite_ne_nil _ _ _ hnil]; exact h0 _ _
    rw [hk]
    have hz : ¬ to_ssize 0 < 0 := by simp [to_ssize, SIZE_MOD, SSIZE_BOUND]
    have hsame : (size + SIZE_MOD - 0 % SIZE_MOD) % SIZE_MOD = size := by
      unfold SIZE_MOD at *; omega
    rw [if_neg hz, hsame, if_pos hpos]
    exact ih _ _ _ hpos hsz

theorem file_write_data_open_failed (orc : Nat → List Byte → Nat) (reach fuel : Nat)
    (w : World) (path : Path) (data : List Byte) (size : Nat) :
    file_write_data false orc reach fuel w path data size = some (false, w, []) := by
  simp [file_write_data, fopen_wb, host_open]

theorem file_write_data_opened (orc : Nat → List Byte → Nat) (reach fuel : Nat) (w : World)
    (path : Path) (data : List Byte) (size : Nat) :
    file_write_data true orc reach fuel w path data size =
      (write_loop orc data fuel 0 size ⟨[], []⟩).map
        (fun rs => (rs.1, after_write w path (rs.2.written.take reach), rs.2.calls)) := by
  unfold file_write_data
  cases hf : w.files path <;>
    cases hl : write_loop orc data fuel 0 size ⟨[], []⟩ <;>
    simp [fopen_wb, host_open, hf, hl, acquire, release, flush, write_at_start, after_write]

theorem create_mode_eq :
    (S_IRUSR ||| S_IWUSR ||| S_IRGRP ||| S_IWGRP ||| S_IROTH ||| S_IWOTH) = 0o666 := by
  decide

theorem create_empty_file_open_failed (w : World) (path : Path) :
    create_empty_file false w path = (false, w) := by
  simp [create_empty_file, host_open]

theorem create_empty_file_opened (w : World) (path : Path) :
    create_empty_file true w path = (true, after_create w path) := by
  unfold create_empty_file
  rw [create_mode_eq]
  cases hf : w.files path <;> simp [host_open, hf, acquire, release, after_create]

theorem file_first_line_world (open_ok read_err : Bool) (w : World) (path : Path)
    (line_out : List Byte) :
    ∃ b out, file_first_line open_ok read_err w path line_out = some (b, out, w) := by
  cases open_ok with
  | false =>
    exact ⟨_, _, file_first_line_open_failed false read_err w path line_out (Or.inl rfl)⟩
  | true =>
    cases hf : w.files path with
    | none =>
      exact ⟨_, _, file_first_line_open_failed true read_err w path line_out (Or.inr hf)⟩
    | some f =>
      cases read_err with
      | true => exact ⟨_, _, file_first_line_no_data true w path line_out f hf (Or.inl rfl)⟩
      | false =>
        by_cases hd : f.data = []
        · exact ⟨_, _, file_first_line_no_data false w path line_out f hf (Or.inr hd)⟩
        · exact ⟨_, _, file_first_line_data w path line_out f hf hd⟩

/-! ## The writer (`file_write_data`) -/

/-- C6 (the code departs from the claim): a failed `fwrite` returns a count
below the request, never a negative number, so the test `nwritten < 0` does not
see it.  With the buffer `"ab"`: when the first call fails accepting nothing
and the second accepts everything, `file_write_data` calls `fwrite` a second
time on the same bytes and returns `true`; when every call fails accepting
nothing, it has not returned after any number of iterations. -/
theorem file_write_data_failed_write_retried :
    (file_write_data true (fun i _ => if i = 0 then 0 else 2) 2 2
        (single_file "f" [1, 2, 3]) "f" [97, 98] 2).map (fun r => (r.1, r.2.2))
      = some (true, [([97, 98], 0), ([97, 98], 2)]) ∧
    ∀ reach fuel, file_write_data true (fun _ _ => 0) reach fuel
        (single_file "f" [1, 2, 3]) "f" [97, 98] 2 = none := by
  constructor
  · decide
  · intro reach fuel
    rw [file_write_data_opened,
      write_loop_stuck (fun _ _ => 0) [97, 98] (fun _ _ => rfl) fuel 0 2 ⟨[], []⟩
        (by decide) (by decide)]
    rfl

/-! ## The first-line reader (`file_first_line`) -/

/-- C2 as stated fails: with `B = "a\nb"` the file `B + "\n"` yields `"a"`, and
with `B = "a\0b"` it yields `"a"` as well; neither is `B`. -/
theorem file_first_line_trailing_newline_counterexample :
    (file_first_line true false (single_file "f" ([97, 10, 98] ++ [NL])) "f" []).map
        (fun r => (r.1, r.2.1)) = some (true, [97]) ∧
    (file_first_line true false (single_file "f" ([97, 10, 98] ++ [NL])) "f" []).map
        (fun r => (r.1, r.2.1)) ≠ some (true, [97, 10, 98]) ∧
    (file_first_line true false (single_file "f" ([97, 0, 98] ++ [NL])) "f" []).map
        (fun r => (r.1, r.2.1)) = some (true, [97]) ∧
    (file_first_line true false (single_file "f" ([97, 0, 98] ++ [NL])) "f" []).map
        (fun r => (r.1, r.2.1)) ≠ some (true, [97, 0, 98]) := by
  decide

/-- C2 (amended): for any buffer `B` without a newline byte and without a NUL
byte, `file_first_line` on a file holding `B` followed by one newline byte
(the file can be opened and read) returns `true`, stores exactly `B` and
leaves the host state as it was. -/
theorem file_first_line_trailing_newline (w : World) (path : Path) (line_out : List Byte)
    (mode : Nat) (B : List Byte)
    (hfile : w.files path = some ⟨mode, B ++ [NL]⟩)
    (hnl : NL ∉ B) (hnul : NUL ∉ B) :
    file_first_line true false w path line_out = some (true, B, w) := by
  rw [file_first_line_data w path line_out _ hfile (by simp)]
  have e : first_line_bytes (B ++ [NL]) = B := first_line_bytes_newline B [] hnl
  simp only [e, c_str_no_nul B hnul]

theorem file_first_line_trailing_newline_witness :
    (single_file "f" ([104, 105] ++ [NL])).files "f" = some ⟨0o644, [104, 105] ++ [NL]⟩ ∧
    NL ∉ ([104, 105] : List Byte) ∧ NUL ∉ ([104, 105] : List Byte) ∧
    file_first_line true false (single_file "f" ([104, 105] ++ [NL])) "f" [1]
      = some (true, [104, 105], single_file "f" ([104, 105] ++ [NL])) :=
  ⟨by decide, by decide, by decide,
    file_first_line_trailing_newline (single_file "f" ([104, 105] ++ [NL])) "f" [1] 0o644
      [104, 105] (by decide) (by decide) (by decide)⟩

/-- C4 as stated fails: the contents `"a\0b\nc"` have `X = "a\0b"` without a
newline, and the call yields `"a"`, not `X`. -/
theorem file_first_line_first_newline_counterexample :
    NL ∉ ([97, 0, 98] : List Byte) ∧
    (file_first_line true false (single_file "f" ([97, 0, 98] ++ [NL] ++ [99])) "f" []).map
        (fun r => (r.1, r.2.1)) = some (true, [97]) ∧
    (file_first_line true false (single_file "f" ([97, 0, 98] ++ [NL] ++ [99])) "f" []).map
        (fun r => (r.1, r.2.1)) ≠ some (true, [97, 0, 98]) := by
  decide

/-- C4 (amended): for every file with contents `X ++ [0x0A] ++ Y`, where `X`
has no newline byte and no NUL byte and `Y` is arbitrary (the file can be
opened and read), `file_first_line` returns `true` and stores exactly `X`:
reading stops at the first newline, that one byte is removed and nothing
else of `X` is. -/
theorem file_first_line_first_newline (w : World) (path : Path) (line_out : List Byte)
    (mode : Nat) (X Y : List Byte)
    (hfile : w.files path = some ⟨mode, X ++ [NL] ++ Y⟩)
    (hnl : NL ∉ X) (hnul : NUL ∉ X) :
    file_first_line true false w path line_out = some (true, X, w) := by
  rw [file_first_line_data w path line_out _ hfile (by simp)]
  have e : first_line_bytes (X ++ [NL] ++ Y) = X := by
    have := first_line_bytes_newline X Y hnl
    simpa using this
  simp only [e, c_str_no_nul X hnul]

theorem file_first_line_first_newline_witness :
    ((single_file "f" ([97, 98, 99] ++ [NL] ++ [10])).files "f"
        = some ⟨0o644, [97, 98, 99] ++ [NL] ++ [10]⟩ ∧
      NL ∉ ([97, 98, 99] : List Byte) ∧ NUL ∉ ([97, 98, 99] : List Byte) ∧
      file_first_line true false (single_file "f" ([97, 98, 99] ++ [NL] ++ [10])) "f" []
        = some (true, [97, 98, 99], single_file "f" ([97, 98, 99] ++ [NL] ++ [10]))) ∧
    ((single_file "g" ([97, 13] ++ [NL] ++ [98, 10])).files "g"
        = some ⟨0o644, [97, 13] ++ [NL] ++ [98, 10]⟩ ∧
      NL ∉ ([97, 13] : List Byte) ∧ NUL ∉ ([97, 13] : List Byte) ∧
      file_first_line true false (single_file "g" ([97, 13] ++ [NL] ++ [98, 10])) "g" []
        = some (true, [97, 13], single_file "g" ([97, 13] ++ [NL] ++ [98, 10]))) ∧
    (file_first_line true false
        (single_file "h" ([102, 105, 114, 115, 116, 32, 108, 105, 110, 101] ++ [NL]
          ++ [115, 101, 99, 111, 110, 100, 10])) "h" []
      = some (true, [102, 105, 114, 115, 116, 32, 108, 105, 110, 101],
          single_file "h" ([102, 105, 114, 115, 116, 32, 108, 105, 110, 101] ++ [NL]
            ++ [115, 101, 99, 111, 110, 100, 10]))) :=
  ⟨⟨by decide, by decide, by decide,
    file_first_line_first_newline (single_file "f" ([97, 98, 99] ++ [NL] ++ [10])) "f" []
      0o644 [97, 98, 99] [10] (by decide) (by decide) (by decide)⟩,
   ⟨by decide, by decide, by decide,
    file_first_line_first_newline (single_file "g" ([97, 13] ++ [NL] ++ [98, 10])) "g" []
      0o644 [97, 13] [98, 10] (by decide) (by decide) (by decide)⟩,
   file_first_line_first_newline
      (single_file "h" ([102, 105, 114, 115, 116, 32, 108, 105, 110, 101] ++ [NL]
        ++ [115, 101, 99, 111, 110, 100, 10])) "h" []
      0o644 [102, 105, 114, 115, 116, 32, 108, 105, 110, 101] [115, 101, 99, 111, 110, 100, 10]
      (by decide) (by decide) (by decide)⟩

/-- C3 as stated fails: writing the empty buffer (which has no newline)
succeeds, and `file_first_line` on the file then returns `false`; writing
`"a\0b"` succeeds, and `file_first_line` then yields `"a"`; and writing `"hi"`
succeeds also when the flush at the closing of the stream delivers nothing,
after which the file is empty and `file_first_line` returns `false`. -/
theorem write_then_first_line_counterexample :
    (file_write_data true (fun _ req => req.length) 0 1 no_files "f" [] 0).map
        (fun r => r.1) = some true ∧
    ((file_write_data true (fun _ req => req.length) 0 1 no_files "f" [] 0).bind
        (fun r => file_first_line true false r.2.1 "f" [7])).map
        (fun r => (r.1, r.2.1)) = some (false, [7]) ∧
    NL ∉ ([97, 0, 98] : List Byte) ∧
    (file_write_data true (fun _ req => req.length) 3 1 no_files "f" [97, 0, 98] 3).map
        (fun r => r.1) = some true ∧
    ((file_write_data true (fun _ req => req.length) 3 1 no_files "f" [97, 0, 98] 3).bind
        (fun r => file_first_line true false r.2.1 "f" [7])).map
        (fun r => (r.1, r.2.1)) = some (true, [97]) ∧
    NL ∉ ([104, 105] : List Byte) ∧
    (file_write_data true (fun _ req => req.length) 0 1 no_files "f" [104, 105] 2).map
        (fun r => r.1) = some true ∧
    ((file_write_data true (fun _ req => req.length) 0 1 no_files "f" [104, 105] 2).bind
        (fun r => file_first_line true false r.2.1 "f" [7])).map
        (fun r => (r.1, r.2.1)) = some (false, [7]) := by
  decide

/-- C3 (amended): for any non-empty buffer `B` without a newline byte and
without a NUL byte (its length being a `size_t`), under any behaviour of
`fwrite`: if `file_write_data(p, B, |B|)` returns `true` and the flush at the
closing of its stream delivers all accepted bytes, then `file_first_line(p)`
on the resulting host state (the file can be opened and read) returns `true`
and stores exactly `B`. -/
theorem write_then_first_line (open_ok : Bool) (orc : Nat → List Byte → Nat)
    (reach fuel : Nat) (w : World) (path : Path) (B line_out : List Byte)
    (hne : B ≠ []) (hnl : NL ∉ B) (hnul : NUL ∉ B) (hlen : B.length < SIZE_MOD)
    (hflush : B.length ≤ reach)
    (hw : (file_write_data open_ok orc reach fuel w path B B.length).map (fun r => r.1)
      = some true) :
    ∃ w1 calls,
      file_write_data open_ok orc reach fuel w path B B.length = some (true, w1, calls) ∧
      file_first_line true false w1 path line_out = some (true, B, w1) := by
  cases open_ok with
  | false => rw [file_write_data_open_failed] at hw; simp at hw
  | true =>
    rw [file_write_data_opened] at hw ⊢
    cases hl : write_loop orc B fuel 0 B.length ⟨[], []⟩ with
    | none => rw [hl] at hw; simp at hw
    | some rs =>
      obtain ⟨r, st⟩ := rs
      rw [hl] at hw
      simp only [Option.map_some', Option.some.injEq] at hw
      subst hw
      have hB : st.written = B :=
        write_loop_true_written orc B hlen fuel 0 B.length ⟨[], []⟩ st
          (Or.inl ⟨Nat.zero_le _, rfl, rfl⟩) hl
      have hall : B.take reach = B := List.take_of_length_le hflush
      refine ⟨after_write w path B, st.calls, by simp [hB, hall], ?_⟩
      rw [file_first_line_data (after_write w path B) path line_out
        ⟨(match w.files path with
          | some f => f.mode
          | none => apply_umask 0o666 w.umask), B⟩ (by simp [after_write]) hne]
      simp only [first_line_bytes_no_newline B hnl, c_str_no_nul B hnul]

theorem write_then_first_line_witness :
    ([104, 105] : List Byte) ≠ [] ∧ NL ∉ ([104, 105] : List Byte) ∧
    NUL ∉ ([104, 105] : List Byte) ∧ ([104, 105] : List Byte).length < SIZE_MOD ∧
    ([104, 105] : List Byte).length ≤ 2 ∧
    (file_write_data true (fun _ _ => 1) 2 2 no_files "f" [104, 105]
        ([104, 105] : List Byte).length).map (fun r => r.1) = some true ∧
    ∃ w1 calls,
      file_write_data true (fun _ _ => 1) 2 2 no_files "f" [104, 105]
        ([104, 105] : List Byte).length = some (true, w1, calls) ∧
      file_first_line true false w1 "f" [7] = some (true, [104, 105], w1) :=
  ⟨by decide, by decide, by decide, by decide, by decide, by decide,
    write_then_first_line true (fun _ _ => 1) 2 2 no_files "f" [104, 105] [7]
      (by decide) (by decide) (by decide) (by decide) (by decide) (by decide)⟩

/-- C5 as stated fails in its last part: on the file `"a\0b\n"` the call
succeeds, the line is `"a\0b"`, and the output argument holds `"a"`. -/
theorem file_first_line_failure_counterexample :
    first_line_bytes [97, 0, 98, 10] = [97, 0, 98] ∧
    (file_first_line true false (single_file "f" [97, 0, 98, 10]) "f" [1]).map
        (fun r => (r.1, r.2.1)) = some (true, [97]) ∧
    (file_first_line true false (single_file "f" [97, 0, 98, 10]) "f" [1]).map
        (fun r => (r.1, r.2.1)) ≠ some (true, first_line_bytes [97, 0, 98, 10]) := by
  decide

/-- C5 (amended): `file_first_line` always returns, without changing the host
state; it returns `false` if and only if the path cannot be opened (the host
refuses or there is no such file) or no bytes could be read (immediate read
error or empty file); in a failing call the output argument keeps its value;
in a succeeding call it is overwritten with the line cut before its first NUL
byte, which is the whole line when the line has no NUL byte. -/
theorem file_first_line_failure (open_ok read_err : Bool) (w : World) (path : Path)
    (line_out : List Byte) :
    ∃ b out, file_first_line open_ok read_err w path line_out = some (b, out, w) ∧
      (b = false ↔
        ((open_ok = false ∨ w.files path = none) ∨
          (read_err = true ∨ (w.files path).map File.data = some []))) ∧
      (b = false → out = line_out) ∧
      (b = true → ∃ f, w.files path = some f ∧ out = c_str (first_line_bytes f.data) ∧
        (NUL ∉ first_line_bytes f.data → out = first_line_bytes f.data)) := by
  cases open_ok with
  | false =>
    exact ⟨false, line_out,
      file_first_line_open_failed false read_err w path line_out (Or.inl rfl), by simp, by simp,
      by simp⟩
  | true =>
    cases hf : w.files path with
    | none =>
      exact ⟨false, line_out,
        file_first_line_open_failed true read_err w path line_out (Or.inr hf), by simp,
        by simp, by simp⟩
    | some f =>
      cases read_err with
      | true =>
        exact ⟨false, line_out,
          file_first_line_no_data true w path line_out f hf (Or.inl rfl), by simp, by simp,
          by simp⟩
      | false =>
        by_cases hd : f.data = []
        · exact ⟨false, line_out,
            file_first_line_no_data false w path line_out f hf (Or.inr hd), by simp [hd],
            by simp, by simp⟩
        · exact ⟨true, c_str (first_line_bytes f.data),
            file_first_line_data w path line_out f hf hd, by simp [hd], by simp,
            fun _ => ⟨f, rfl, rfl, fun h => c_str_no_nul _ h⟩⟩

theorem file_first_line_failure_witness :
    file_first_line true false (single_file "f" []) "f" [1, 2]
      = some (false, [1, 2], single_file "f" []) := by
  obtain ⟨b, out, h, hiff, hkeep, _⟩ :=
    file_first_line_failure true false (single_file "f" []) "f" [1, 2]
  have hb : b = false := hiff.mpr (Or.inr (Or.inr (by decide)))
  rw [h, hkeep hb, hb]

/-- C9: when `file_first_line` succeeds on a file whose first line (the bytes
up to the first newline or the end of the file, newline removed) is `L`, the
string stored in the output argument is the longest initial part of `L`
without a NUL byte: it is an initial part of `L`, it has no NUL byte, every
initial part of `L` without a NUL byte is an initial part of it, and it is
`L` exactly when `L` has no NUL byte. -/
theorem file_first_line_c_string (w : World) (path : Path) (line_out : List Byte) (f : File)
    (hfile : w.files path = some f) (hne : f.data ≠ []) :
    ∃ out, file_first_line true false w path line_out = some (true, out, w) ∧
      out <+: first_line_bytes f.data ∧ NUL ∉ out ∧
      (∀ P, P <+: first_line_bytes f.data → NUL ∉ P → P <+: out) ∧
      (out = first_line_bytes f.data ↔ NUL ∉ first_line_bytes f.data) := by
  refine ⟨c_str (first_line_bytes f.data), file_first_line_data w path line_out f hfile hne,
    c_str_is_initial _, c_str_has_no_nul _, fun P hP h => c_str_longest _ P hP h, ?_, ?_⟩
  · intro e
    rw [← e]
    exact c_str_has_no_nul _
  · exact fun h => c_str_no_nul _ h

theorem file_first_line_c_string_witness :
    (single_file "f" [97, 98, 0, 99, 10, 100]).files "f"
      = some ⟨0o644, [97, 98, 0, 99, 10, 100]⟩ ∧
    ([97, 98, 0, 99, 10, 100] : List Byte) ≠ [] ∧
    ∃ out, file_first_line true false (single_file "f" [97, 98, 0, 99, 10, 100]) "f" []
        = some (true, out, single_file "f" [97, 98, 0, 99, 10, 100]) ∧
      out <+: first_line_bytes [97, 98, 0, 99, 10, 100] ∧ NUL ∉ out ∧
      (∀ P, P <+: first_line_bytes [97, 98, 0, 99, 10, 100] → NUL ∉ P → P <+: out) ∧
      (out = first_line_bytes [97, 98, 0, 99, 10, 100]
        ↔ NUL ∉ first_line_bytes [97, 98, 0, 99, 10, 100]) :=
  ⟨by decide, by decide,
    file_first_line_c_string (single_file "f" [97, 98, 0, 99, 10, 100]) "f" []
      ⟨0o644, [97, 98, 0, 99, 10, 100]⟩ (by decide) (by decide)⟩

/-- C10: the unguarded access `line[read - 1]` is in bounds.  Whenever
`getline` does not report failure the count `read` is at least 1, so
`read - 1` is not negative and is a position among the `read` bytes `getline`
stored; the stream was not empty (on an empty stream `getline` returns -1 and
the failure branch is taken); and `file_first_line` never leaves the buffer,
whatever the host state. -/
theorem getline_index_in_bounds (open_ok read_err : Bool) (w : World) (path : Path)
    (line_out stream : List Byte) (h : 0 ≤ (getline stream).1) :
    1 ≤ (getline stream).1 ∧ 0 ≤ (getline stream).1 - 1 ∧
      (getline stream).1 = ((read_record stream).length : Int) ∧
      (getline stream).2 = read_record stream ++ [NUL] ∧
      ((getline stream).1 - 1).toNat < (read_record stream).length ∧
      (char_at (getline stream).2 ((getline stream).1 - 1)).isSome = true ∧
      stream ≠ [] ∧ (getline []).1 = -1 ∧
      (file_first_line open_ok read_err w path line_out).isSome = true := by
  have hs : stream ≠ [] := by
    intro e
    rw [e] at h
    simp [getline, read_record] at h
  have hr : read_record stream ≠ [] := fun e => hs ((read_record_eq_nil stream).mp e)
  have hpos : 0 < (read_record stream).length := List.length_pos.mpr hr
  have h1 : (getline stream).1 = ((read_record stream).length : Int) := by
    simp [getline, hr]
  have h2 : (getline stream).2 = read_record stream ++ [NUL] := by
    simp [getline, hr]
  obtain ⟨c, _, hc, _⟩ := getline_line stream hs
  refine ⟨by omega, by omega, h1, h2, by omega, by rw [hc]; rfl, hs, by decide,
    file_first_line_returns open_ok read_err w path line_out⟩

theorem getline_index_in_bounds_witness :
    0 ≤ (getline [97, 10, 98]).1 ∧
    (1 ≤ (getline [97, 10, 98]).1 ∧ 0 ≤ (getline [97, 10, 98]).1 - 1 ∧
      (getline [97, 10, 98]).1 = ((read_record [97, 10, 98]).length : Int) ∧
      (getline [97, 10, 98]).2 = read_record [97, 10, 98] ++ [NUL] ∧
      ((getline [97, 10, 98]).1 - 1).toNat < (read_record [97, 10, 98]).length ∧
      (char_at (getline [97, 10, 98]).2 ((getline [97, 10, 98]).1 - 1)).isSome = true ∧
      ([97, 10, 98] : List Byte) ≠ [] ∧ (getline []).1 = -1 ∧
      (file_first_line true false (single_file "f" [97, 10, 98]) "f" []).isSome = true) :=
  ⟨by decide,
    getline_index_in_bounds true false (single_file "f" [97, 10, 98]) "f" [] [97, 10, 98]
      (by decide)⟩

/-! ## `create_empty_file` and the handle table -/

/-- C7: whenever `create_empty_file(p)` returns `true` there is a file at `p`;
a file that existed is exactly as before; a file that did not exist is empty
and has the permission bits 0666 less the umask, 0666 being the mode passed to
`open`; the call returns `false` exactly when the open call fails, and then no
file has changed; files at other paths never change. -/
theorem create_empty_file_contract (open_ok : Bool) (w : World) (path : Path) :
    ((create_empty_file open_ok w path).1 = true →
      ∃ f, (create_empty_file open_ok w path).2.files path = some f) ∧
    (∀ f, w.files path = some f → (create_empty_file open_ok w path).1 = true →
      (create_empty_file open_ok w path).2.files path = some f) ∧
    (w.files path = none → (create_empty_file open_ok w path).1 = true →
      (create_empty_file open_ok w path).2.files path
        = some ⟨apply_umask 0o666 w.umask, []⟩) ∧
    (S_IRUSR ||| S_IWUSR ||| S_IRGRP ||| S_IWGRP ||| S_IROTH ||| S_IWOTH) = 0o666 ∧
    ((create_empty_file open_ok w path).1 = false ↔ open_ok = false) ∧
    ((create_empty_file open_ok w path).1 = false →
      (create_empty_file open_ok w path).2.files = w.files) ∧
    (∀ q, q ≠ path → (create_empty_file open_ok w path).2.files q = w.files q) := by
  cases open_ok with
  | false =>
    rw [create_empty_file_open_failed]
    simp [create_mode_eq]
  | true =>
    rw [create_empty_file_opened]
    cases hf : w.files path with
    | none =>
      simp only [after_create, hf]
      refine ⟨fun _ => ⟨_, Function.update_same _ _ _⟩, by simp, fun _ _ => by simp,
        create_mode_eq, by simp, by simp, fun q hq => Function.update_noteq hq _ _⟩
    | some f =>
      simp only [after_create, hf]
      refine ⟨fun _ => ⟨f, rfl⟩, ?_, by simp, create_mode_eq, by simp, by simp, by simp⟩
      intro g hg _
      exact hg

theorem create_empty_file_contract_witness :
    ((create_empty_file true no_files "/tmp/x").1 = true ∧
      no_files.files "/tmp/x" = none ∧
      (create_empty_file true no_files "/tmp/x").2.files "/tmp/x"
        = some ⟨apply_umask 0o666 no_files.umask, []⟩) ∧
    ((create_empty_file true (single_file "p" [104, 101, 108, 108, 111]) "p").1 = true ∧
      (single_file "p" [104, 101, 108, 108, 111]).files "p"
        = some ⟨0o644, [104, 101, 108, 108, 111]⟩ ∧
      (create_empty_file true (single_file "p" [104, 101, 108, 108, 111]) "p").2.files "p"
        = some ⟨0o644, [104, 101, 108, 108, 111]⟩) :=
  ⟨⟨by decide, by decide,
    (create_empty_file_contract true no_files "/tmp/x").2.2.1 (by decide) (by decide)⟩,
   ⟨by decide, by decide,
    (create_empty_file_contract true (single_file "p" [104, 101, 108, 108, 111]) "p").2.1
      ⟨0o644, [104, 101, 108, 108, 111]⟩ (by decide) (by decide)⟩⟩

/-- C8: each of the three operations leaves the table of open handles as it
found it, on every return: `create_empty_file` (success and open failure),
`file_first_line` (which always returns: open failure, read failure and
success) and `file_write_data` (whenever it returns: open failure, write
failure and success). -/
theorem handles_restored (open_ok read_err : Bool) (orc : Nat → List Byte → Nat)
    (reach fuel : Nat) (w : World) (path : Path) (line_out data : List Byte) (size : Nat) :
    (create_empty_file open_ok w path).2.handles = w.handles ∧
    (∃ r, file_first_line open_ok read_err w path line_out = some r ∧
      r.2.2.handles = w.handles) ∧
    (∀ r, file_write_data open_ok orc reach fuel w path data size = some r →
      r.2.1.handles = w.handles) := by
  refine ⟨?_, ?_, ?_⟩
  · cases open_ok with
    | false => rw [create_empty_file_open_failed]
    | true =>
      rw [create_empty_file_opened]
      cases hf : w.files path <;> simp [after_create, hf]
  · obtain ⟨b, out, h⟩ := file_first_line_world open_ok read_err w path line_out
    exact ⟨_, h, rfl⟩
  · intro r hr
    cases open_ok with
    | false =>
      rw [file_write_data_open_failed] at hr
      simp only [Option.some.injEq] at hr
      rw [← hr]
    | true =>
      rw [file_write_data_opened] at hr
      cases hl : write_loop orc data fuel 0 size ⟨[], []⟩ with
      | none => rw [hl] at hr; simp at hr
      | some rs =>
        rw [hl] at hr
        simp only [Option.map_some', Option.some.injEq] at hr
        rw [← hr]
        rfl

theorem handles_restored_witness :
    (file_write_data true (fun _ req => req.length) 1 1 (single_file "f" [1]) "f" [97] 1).map
      (fun r => (r.1, r.2.1.handles)) = some (true, (single_file "f" [1]).handles) := by
  have H := (handles_restored true false (fun _ req => req.length) 1 1 (single_file "f" [1])
    "f" [] [97] 1).2.2
  cases h : file_write_data true (fun _ req => req.length) 1 1 (single_file "f" [1]) "f"
      [97] 1 with
  | none =>
    have hs : (file_write_data true (fun _ req => req.length) 1 1 (single_file "f" [1]) "f"
      [97] 1).isSome = true := by decide
    rw [h] at hs
    exact absurd hs (by simp)
  | some r =>
    have hb : (file_write_data true (fun _ req => req.length) 1 1 (single_file "f" [1]) "f"
      [97] 1).map (fun r => r.1) = some true := by decide
    rw [h] at hb
    simp only [Option.map_some', Option.some.injEq] at hb
    simp [H r h, hb]

end mb.util
